import Mathlib

/-!
Shallow embedding of the cave-map generator in
`src/data/generate_test_wall_map.c`, together with theorems about its
pipeline: random cell initialization (`GenerateRandomMapCells`),
cellular-automaton smoothing (`SmoothMapCells`), connectivity enforcement
(`FillMapHoles`, comprising the seed carve, the thick-brush flood fill, the
hole-preservation pass and the seal pass) and tile selection
(`GenerateMapPixels`).

Grids are modelled as a width, a height and a cell function on `Int`
coordinates (`true` = wall, `false` = open, matching the C values 1/0); the
macro `MAP_DATA` returns the numeric cell value with out-of-bounds reads
giving 1, exactly as in the source.  The flood-fill `while` loop is
modelled as a fuel-indexed loop `floodLoop` that returns the accessibility
map together with the remaining stack; `fillFuel` is an explicit fuel
bound, proven sufficient below (the loop always empties its stack within
`9*W*H + 1` iterations), so running with that fuel reproduces the C loop.
The grid dimensions, fixed to 160 by the C macros, are kept as parameters
`W`, `H` of the grid structure; the reference values appear as `MAP_WIDTH`
and `MAP_HEIGHT`.
-/

namespace WallMap

/-- Coordinates, matching the C `XY` struct of two `int`s. -/
abbrev XY := Int × Int

/-- Occupancy grid: `map_data` plus its dimensions.  `cell x y = true`
means wall (C value 1), `false` means open (C value 0); only coordinates
inside `[0,W) x [0,H)` are meaningful, out-of-bounds lookups go through
`MAP_DATA` below. -/
structure Grid where
  W : Nat
  H : Nat
  cell : Int → Int → Bool

/-- Reference map width from `#define MAP_WIDTH 160`. -/
def MAP_WIDTH : Nat := 160

/-- Reference map height from `#define MAP_HEIGHT 160`. -/
def MAP_HEIGHT : Nat := 160

/-- Index of solid wall tile, `#define WALL_TILE_INDEX 0x80`. -/
def WALL_TILE_INDEX : Nat := 0x80

/-- Bits where tile variations are encoded, `#define VARIATION_MASK 0x70`. -/
def VARIATION_MASK : Nat := 0x70

/-- In-bounds test used by the C code's explicit bounds checks. -/
abbrev inB (W H : Nat) (x y : Int) : Prop :=
  0 ≤ x ∧ x < (W : Int) ∧ 0 ≤ y ∧ y < (H : Int)

/-- The C macro `MAP_DATA(x, y)`: out-of-bounds coordinates read as wall
(value 1), in-bounds coordinates read the cell value (1 = wall, 0 = open). -/
def MAP_DATA (g : Grid) (x y : Int) : Nat :=
  if x < 0 ∨ (g.W : Int) ≤ x ∨ y < 0 ∨ (g.H : Int) ≤ y then 1
  else if g.cell x y then 1 else 0

/-- The nine Moore-neighborhood offsets in the read order of
`SmoothMapCells` (row by row, self included). -/
def nbhd9 : List XY :=
  [(-1,-1), (0,-1), (1,-1), (-1,0), (0,0), (1,0), (-1,1), (0,1), (1,1)]

/-- The nine Moore-neighborhood positions read by one smoothing pass at
`(x, y)`, in the C read order. -/
def moorePositions (x y : Int) : List XY :=
  [(x-1, y-1), (x, y-1), (x+1, y-1), (x-1, y), (x, y), (x+1, y),
   (x-1, y+1), (x, y+1), (x+1, y+1)]

/-- Wall count over the 3x3 Moore neighborhood of `(x, y)` (self included,
out-of-bounds counted as wall), the `count` sum in `SmoothMapCells`. -/
def mooreCount (g : Grid) (x y : Int) : Nat :=
  MAP_DATA g (x-1) (y-1) + MAP_DATA g x (y-1) + MAP_DATA g (x+1) (y-1) +
  MAP_DATA g (x-1) y + MAP_DATA g x y + MAP_DATA g (x+1) y +
  MAP_DATA g (x-1) (y+1) + MAP_DATA g x (y+1) + MAP_DATA g (x+1) (y+1)

/-- One smoothing pass: every cell of the buffer is computed from the
pre-pass grid (`count <= 4 ? 0 : 1`), then the buffer replaces the grid
(the `memcpy` at the end of each iteration of `SmoothMapCells`). -/
def smoothPass (g : Grid) : Grid :=
  ⟨g.W, g.H, fun x y => if mooreCount g x y ≤ 4 then false else true⟩

/-- `SmoothMapCells`: four smoothing iterations (`for(i = 0; i < 4; i++)`). -/
def SmoothMapCells (g : Grid) : Grid :=
  smoothPass (smoothPass (smoothPass (smoothPass g)))

/-- Accessibility map `accessible_spots`: bit 1 (value `& 1`, bit A) marks a
flood-filled cell, bit 2 (value `& 2`, bit B) marks a neighbor of one. -/
abbrev Acc := Int → Int → Nat

/-- The eight flood-fill direction offsets, in the order of the C array
`offsets`. -/
def offsets : List XY :=
  [(1, 0), (0, 1), (-1, 0), (0, -1), (1, 1), (-1, 1), (-1, -1), (1, -1)]

/-- The eight neighbor offsets in the order of the `MARK_ACCESSIBLE_NEIGHBOR`
invocations in `FillMapHoles` (also the ring order of the 3x3-open test). -/
def markOrder : List XY :=
  [(1, 0), (1, 1), (0, 1), (-1, 1), (-1, 0), (-1, -1), (0, -1), (1, -1)]

/-- X coordinate of the flood-fill seed, `x = MAP_WIDTH / 2`. -/
def seedX (g : Grid) : Int := ((g.W / 2 : Nat) : Int)

/-- Y coordinate of the flood-fill seed, `y = MAP_HEIGHT / 2`. -/
def seedY (g : Grid) : Int := ((g.H / 2 : Nat) : Int)

/-- The flood-fill seed coordinate `(W/2, H/2)`. -/
def seedXY (g : Grid) : XY := (seedX g, seedY g)

/-- The nine coordinates of the carved 3x3 seed block, in the write order of
`FillMapHoles`. -/
def seedBlock (g : Grid) : List XY :=
  [(seedX g - 1, seedY g - 1), (seedX g, seedY g - 1), (seedX g + 1, seedY g - 1),
   (seedX g - 1, seedY g), (seedX g, seedY g), (seedX g + 1, seedY g),
   (seedX g - 1, seedY g + 1), (seedX g, seedY g + 1), (seedX g + 1, seedY g + 1)]

/-- The seed carve of `FillMapHoles`: the nine `map_data[..] = 0` writes
that force the 3x3 block centered at `(W/2, H/2)` open. -/
def carve (g : Grid) : Grid :=
  ⟨g.W, g.H, fun x y =>
    if seedX g - 1 ≤ x ∧ x ≤ seedX g + 1 ∧ seedY g - 1 ≤ y ∧ y ≤ seedY g + 1
    then false else g.cell x y⟩

/-- The pop-time write `accessible_spots[y * MAP_WIDTH + x] = 1`. -/
def setA (a : Acc) (x y : Int) : Acc :=
  fun u v => if u = x ∧ v = y then 1 else a u v

/-- The macro `MARK_ACCESSIBLE_NEIGHBOR(nx, ny)`: `or` bit 2 into the
accessibility value at `(nx, ny)` when that coordinate is in bounds. -/
def markNeighbor (g : Grid) (a : Acc) (nx ny : Int) : Acc :=
  fun u v => if inB g.W g.H nx ny ∧ u = nx ∧ v = ny then a u v ||| 2 else a u v

/-- The eight `MARK_ACCESSIBLE_NEIGHBOR` invocations around `(x, y)`. -/
def markNeighbors (g : Grid) (a : Acc) (x y : Int) : Acc :=
  markOrder.foldl (fun b o => markNeighbor g b (x + o.1) (y + o.2)) a

/-- The 3x3-all-open test of the flood fill: all nine `MAP_DATA` reads
centered at `(x, y)` give 0 (so a candidate whose neighborhood touches the
border fails, since out-of-bounds reads give 1).  Read order follows the C
conjunction: center first, then the ring. -/
def open3x3 (g : Grid) (x y : Int) : Bool :=
  (MAP_DATA g x y == 0) &&
  (MAP_DATA g (x+1) y == 0) && (MAP_DATA g (x+1) (y+1) == 0) &&
  (MAP_DATA g x (y+1) == 0) && (MAP_DATA g (x-1) (y+1) == 0) &&
  (MAP_DATA g (x-1) y == 0) && (MAP_DATA g (x-1) (y-1) == 0) &&
  (MAP_DATA g x (y-1) == 0) && (MAP_DATA g (x+1) (y-1) == 0)

/-- The push loop `for(i = 0; i < 8; i++)`: for each offset whose target is
the center of an all-open 3x3 block, push the target onto the stack (list
head = stack top, so later pushes end up nearer the head). -/
def pushCandidates (g : Grid) (x y : Int) (rest : List XY) : List XY :=
  offsets.foldl
    (fun s o => if open3x3 g (x + o.1) (y + o.2) then (x + o.1, y + o.2) :: s else s)
    rest

/-- The flood-fill `while( fill_stack.size > 0 )` loop of `FillMapHoles`,
as a fuel-indexed loop: pop `(x, y)`; if its bit A is set, discard it;
otherwise write value 1 at `(x, y)`, `or` bit 2 into the eight in-bounds
neighbors, and push every direction whose 3x3 block is fully open.  Returns
the accessibility map and the remaining stack (empty when the loop exited
normally; `fillFuel` below is proven sufficient for that). -/
def floodLoop (g : Grid) : Nat → Acc → List XY → Acc × List XY
  | 0, a, s => (a, s)
  | _ + 1, a, [] => (a, [])
  | fuel + 1, a, (x, y) :: rest =>
    if a x y &&& 1 ≠ 0 then floodLoop g fuel a rest
    else floodLoop g fuel (markNeighbors g (setA a x y) x y) (pushCandidates g x y rest)

/-- Fuel bound for `floodLoop`: each iteration pops one entry, and a pop
that marks a new cell pushes at most eight entries while shrinking the set
of unmarked cells, so `9*W*H + 1` iterations always suffice for the
initial one-element stack (proven in `floodLoop_empties`). -/
def fillFuel (g : Grid) : Nat := 9 * g.W * g.H + 1

/-- The accessibility map produced by the flood fill of `FillMapHoles`,
starting from the all-zero `calloc`'d map and the one-element stack holding
the seed. -/
def floodAcc (g1 : Grid) : Acc :=
  (floodLoop g1 (fillFuel g1) (fun _ _ => 0) [seedXY g1]).1

/-- Sum of the wall values of the four orthogonal neighbors (out-of-bounds
counted as wall), as read by the hole-preservation pass. -/
def orthCount (g : Grid) (x y : Int) : Nat :=
  MAP_DATA g (x+1) y + MAP_DATA g x (y+1) + MAP_DATA g (x-1) y + MAP_DATA g x (y-1)

/-- The hole-preservation pass of `FillMapHoles`: every in-bounds cell that
is open, has accessibility value 0, and has orthogonal wall sum 3 (exactly
one open orthogonal neighbor) gets its accessibility value set to 1. -/
def holePass (g : Grid) (a : Acc) : Acc :=
  fun x y =>
    if inB g.W g.H x y ∧ g.cell x y = false ∧ a x y = 0 ∧ orthCount g x y = 3
    then 1 else a x y

/-- The seal pass of `FillMapHoles`: every in-bounds open cell whose
accessibility value is 0 is set to wall. -/
def sealPass (g : Grid) (a : Acc) : Grid :=
  ⟨g.W, g.H, fun x y =>
    if inB g.W g.H x y ∧ g.cell x y = false ∧ a x y = 0 then true
    else g.cell x y⟩

/-- `FillMapHoles`: carve the seed block, flood fill from the seed,
preserve single-cell holes, then seal every unmarked open cell. -/
def FillMapHoles (g : Grid) : Grid :=
  sealPass (carve g) (holePass (carve g) (floodAcc (carve g)))

/-- The C `RAND_MAX` (glibc value), used by `GenerateRandomMapCells`. -/
def RAND_MAX : Nat := 2147483647

/-- The per-cell wall decision `((float)rand() / (float)RAND_MAX) < 0.45`
of `GenerateRandomMapCells`, with the floating-point quotient modelled as
the exact rational quotient. -/
def randWall (v : Nat) : Bool := decide ((v : ℚ) / (RAND_MAX : ℚ) < 45 / 100)

/-- `GenerateRandomMapCells`: the cell at `(x, y)` consumes draw number
`y*W + x` of the random sequence (row-major order, one `rand()` call per
cell); out-of-bounds cells are never written and are left open here. -/
def GenerateRandomMapCells (W H : Nat) (r : Nat → Nat) : Grid :=
  ⟨W, H, fun x y =>
    if inB W H x y then randWall (r (y.toNat * W + x.toNat)) else false⟩

/-- `GenerateMapCells`: random seeding, smoothing, hole filling. -/
def GenerateMapCells (W H : Nat) (r : Nat → Nat) : Grid :=
  FillMapHoles (SmoothMapCells (GenerateRandomMapCells W H r))

/-- The 4-bit orthogonal-neighbor wall mask computed by
`GenerateMapPixels` for an open cell: right = bit 0, down = bit 1,
left = bit 2, up = bit 3, out-of-bounds counted as wall. -/
def adjMask (g : Grid) (x y : Int) : Nat :=
  (MAP_DATA g (x+1) y <<< 0) ||| (MAP_DATA g x (y+1) <<< 1) |||
  (MAP_DATA g (x-1) y <<< 2) ||| (MAP_DATA g x (y-1) <<< 3)

/-- The tile index emitted for cell `(x, y)` given the random draw `r`:
the fixed wall tile for wall cells, otherwise the adjacency mask combined
with the draw restricted to the variation bits. -/
def tileIndex (g : Grid) (x y : Int) (r : Nat) : Nat :=
  if g.cell x y then WALL_TILE_INDEX
  else adjMask g x y ||| (r &&& VARIATION_MASK)

/-- One row of `GenerateMapPixels` with random-draw threading: wall cells
emit `WALL_TILE_INDEX` without consuming a draw, open cells consume the
next draw for their variation bits.  Returns the row and the next draw
index. -/
def pixelRow (g : Grid) (r : Nat → Nat) (y : Int) : List Int → Nat → List Nat × Nat
  | [], k => ([], k)
  | x :: xs, k =>
    if g.cell x y then
      let t := pixelRow g r y xs k
      (WALL_TILE_INDEX :: t.1, t.2)
    else
      let t := pixelRow g r y xs (k + 1)
      ((adjMask g x y ||| (r k &&& VARIATION_MASK)) :: t.1, t.2)

/-- All rows of `GenerateMapPixels`, threading the draw index row by row. -/
def pixelRows (g : Grid) (r : Nat → Nat) : List Int → Nat → List (List Nat) × Nat
  | [], k => ([], k)
  | y :: ys, k =>
    let row := pixelRow g r y ((List.range g.W).map Int.ofNat) k
    let rest := pixelRows g r ys row.2
    (row.1 :: rest.1, rest.2)

/-- `GenerateMapPixels`: the tile-index array for the whole grid, starting
from draw index `k` of the random sequence. -/
def GenerateMapPixels (g : Grid) (r : Nat → Nat) (k : Nat) : List (List Nat) :=
  (pixelRows g r ((List.range g.H).map Int.ofNat) k).1

/-- The whole generator run of `main`: `GenerateMapCells` consumes the
first `W*H` draws, then `GenerateMapPixels` continues with the same
sequence.  Returns the final occupancy grid and the tile-index array. -/
def pipeline (W H : Nat) (r : Nat → Nat) : Grid × List (List Nat) :=
  (GenerateMapCells W H r, GenerateMapPixels (GenerateMapCells W H r) r (W * H))

/-- Open-cell predicate on the final grid: in bounds and not a wall. -/
abbrev openCell (g : Grid) (c : XY) : Prop :=
  inB g.W g.H c.1 c.2 ∧ g.cell c.1 c.2 = false

/-- Accessibility bit A (`value & 1`) of a coordinate. -/
abbrev bitA (a : Acc) (c : XY) : Prop := a c.1 c.2 &&& 1 = 1

/-- One Moore step: `d` is one of the eight flood-fill neighbors of `c`. -/
abbrev stepMoore (c d : XY) : Prop :=
  ∃ o ∈ offsets, d = (c.1 + o.1, c.2 + o.2)

/-- One orthogonal step: `d` is one of the four orthogonal neighbors of `c`. -/
abbrev orthAdj (c d : XY) : Prop :=
  ∃ o ∈ [((1:Int), (0:Int)), (0, 1), (-1, 0), (0, -1)], d = (c.1 + o.1, c.2 + o.2)

/-- Reachability from `c` to `d` through a chain of Moore-adjacent open
cells of `g` (the weakest connectivity notion among open cells). -/
def mooreOpenReach (g : Grid) (c d : XY) : Prop :=
  Relation.ReflTransGen (fun u v => stepMoore u v ∧ openCell g v) c d

/-- Reachability through a chain of Moore-adjacent cells that carry
accessibility bit A and sit at the center of a fully open 3x3 block of
`g` (the "chain of 3x3-all-open centers" of the connectivity claim). -/
def chainA (g : Grid) (a : Acc) (c d : XY) : Prop :=
  Relation.ReflTransGen
    (fun u v => stepMoore u v ∧ bitA a v ∧ open3x3 g v.1 v.2 = true) c d

/-- Formalization of the claimed connectivity invariant on the final grid:
the open cells form a single mutually reachable set plus isolated single
cells, and no other disconnected open region of two or more cells remains.
In particular any two open cells that each have an open orthogonal
neighbor (so each lies in a region of size at least two) belong to the
single region, hence are mutually reachable through open cells; stated
with the weakest adjacency (Moore steps through open cells), which is
implied by reachability through a chain of 3x3-all-open centers. -/
def connectivityClaim (g : Grid) : Prop :=
  ∀ c d : XY, openCell g c → openCell g d →
    (∃ c2, orthAdj c c2 ∧ openCell g c2) →
    (∃ d2, orthAdj d d2 ∧ openCell g d2) →
    mooreOpenReach g c d

/-- Count of in-bounds cells whose accessibility bit A is still clear;
the flood-fill termination measure counts these. -/
def unmarkedCount (g : Grid) (a : Acc) : Nat :=
  (((Finset.range g.W) ×ˢ (Finset.range g.H)).filter
    (fun p => a (p.1 : Int) (p.2 : Int) &&& 1 = 0)).card

/-- An all-wall 9x9 test grid (all cells wall before `FillMapHoles`). -/
def gAll : Grid := ⟨9, 9, fun _ _ => true⟩

/-- A 9x9 test grid that is all wall except a two-cell open pocket at
`(1,1)` and `(2,1)`. -/
def gPocket : Grid :=
  ⟨9, 9, fun x y => !(y == 1 && (x == 1 || x == 2))⟩

/-- The reference 160x160 grid shape (contents irrelevant). -/
def g160 : Grid := ⟨MAP_WIDTH, MAP_HEIGHT, fun _ _ => true⟩

/-- A 3x3 test grid whose open cells are the 2x2 block with corners
`(0,0)` and `(1,1)`; at `(1,1)` the right and down neighbors are wall and
the left and up neighbors are open. -/
def gTile : Grid :=
  ⟨3, 3, fun x y => !((x == 0 || x == 1) && (y == 0 || y == 1))⟩

end WallMap

namespace WallMap

theorem lor_two_and_one (v : Nat) : (v ||| 2) &&& 1 = v &&& 1 := by
  apply Nat.eq_of_testBit_eq
  intro i
  rcases i with _ | j
  · simp [Nat.testBit_lor, Nat.testBit_land]
  · simp [Nat.testBit_lor, Nat.testBit_land, Nat.testBit_succ]

theorem lor_two_ne_zero (v : Nat) : v ||| 2 ≠ 0 := by
  intro h
  have h1 : (v ||| 2).testBit 1 = true := by
    simp [Nat.testBit_lor]
    right
    decide
  rw [h] at h1
  simp [Nat.zero_testBit] at h1

theorem lor_masked_and15 (m r : Nat) (hm : m < 16) :
    (m ||| (r &&& 112)) &&& 15 = m := by
  apply Nat.eq_of_testBit_eq
  intro i
  have hcase : i < 4 ∨ 4 ≤ i := by omega
  rcases hcase with hi | hi
  · have h112 : Nat.testBit 112 i = false := by
      interval_cases i <;> decide
    have h15 : Nat.testBit 15 i = true := by
      interval_cases i <;> decide
    simp [Nat.testBit_lor, Nat.testBit_land, h112, h15]
  · have h15 : (15 : Nat).testBit i = false := by
      apply Nat.testBit_lt_two_pow
      calc (15:Nat) < 2 ^ 4 := by norm_num
        _ ≤ 2 ^ i := Nat.pow_le_pow_right (by norm_num) hi
    have hm2 : m.testBit i = false := by
      apply Nat.testBit_lt_two_pow
      calc m < 2 ^ 4 := hm
        _ ≤ 2 ^ i := Nat.pow_le_pow_right (by norm_num) hi
    simp [Nat.testBit_lor, Nat.testBit_land, h15, hm2]

theorem MAP_DATA_cases (g : Grid) (x y : Int) :
    MAP_DATA g x y = 0 ∨ MAP_DATA g x y = 1 := by
  unfold MAP_DATA
  split
  · right; rfl
  · split
    · right; rfl
    · left; rfl

theorem MAP_DATA_eq_zero_iff (g : Grid) (x y : Int) :
    MAP_DATA g x y = 0 ↔ inB g.W g.H x y ∧ g.cell x y = false := by
  unfold MAP_DATA
  split
  · rename_i h
    constructor
    · intro h1
      exact absurd h1 one_ne_zero
    · intro h1
      exfalso
      simp only [inB] at h1
      omega
  · rename_i h
    split
    · rename_i hc
      constructor
      · intro h1
        exact absurd h1 one_ne_zero
      · intro h1
        rw [h1.2] at hc
        exact absurd hc Bool.false_ne_true
    · rename_i hc
      simp only [inB]
      constructor
      · intro _
        exact ⟨by omega, by simpa using hc⟩
      · intro _
        trivial

theorem markNeighbor_apply (g : Grid) (a : Acc) (nx ny u v : Int) :
    markNeighbor g a nx ny u v
      = if inB g.W g.H nx ny ∧ u = nx ∧ v = ny then a u v ||| 2 else a u v := rfl

theorem setA_apply (a : Acc) (x y u v : Int) :
    setA a x y u v = if u = x ∧ v = y then 1 else a u v := rfl

end WallMap

namespace WallMap

theorem foldMark_bit0 (g : Grid) (x y : Int) (l : List XY) :
    ∀ (a : Acc) (u v : Int),
      (l.foldl (fun b o => markNeighbor g b (x + o.1) (y + o.2)) a) u v &&& 1
        = a u v &&& 1 := by
  induction l with
  | nil => intro a u v; rfl
  | cons o t ih =>
    intro a u v
    rw [List.foldl_cons, ih, markNeighbor_apply]
    split
    · exact lor_two_and_one _
    · rfl

theorem foldMark_nonzero_mono (g : Grid) (x y : Int) (l : List XY) :
    ∀ (a : Acc) (u v : Int), a u v ≠ 0 →
      (l.foldl (fun b o => markNeighbor g b (x + o.1) (y + o.2)) a) u v ≠ 0 := by
  induction l with
  | nil => intro a u v h; exact h
  | cons o t ih =>
    intro a u v h
    rw [List.foldl_cons]
    apply ih
    rw [markNeighbor_apply]
    split
    · exact lor_two_ne_zero _
    · exact h

theorem foldMark_oob (g : Grid) (x y u v : Int) (hout : ¬ inB g.W g.H u v)
    (l : List XY) :
    ∀ a : Acc,
      (l.foldl (fun b o => markNeighbor g b (x + o.1) (y + o.2)) a) u v = a u v := by
  induction l with
  | nil => intro a; rfl
  | cons o t ih =>
    intro a
    rw [List.foldl_cons, ih, markNeighbor_apply]
    split
    · rename_i h
      exact absurd (by rw [h.2.1, h.2.2]; exact h.1) hout
    · rfl

theorem foldMark_untouched (g : Grid) (x y u v : Int) (l : List XY)
    (hne : ∀ o ∈ l, ¬(u = x + o.1 ∧ v = y + o.2)) :
    ∀ a : Acc,
      (l.foldl (fun b o => markNeighbor g b (x + o.1) (y + o.2)) a) u v = a u v := by
  induction l with
  | nil => intro a; rfl
  | cons o t ih =>
    intro a
    rw [List.foldl_cons,
        ih (fun o2 ho2 => hne o2 (List.mem_cons_of_mem _ ho2)),
        markNeighbor_apply]
    split
    · rename_i h
      exact absurd h.2 (hne o (List.mem_cons_self _ _))
    · rfl

theorem foldMark_covers (g : Grid) (x y : Int) (l : List XY) :
    ∀ (a : Acc) (o : XY), o ∈ l → inB g.W g.H (x + o.1) (y + o.2) →
      (l.foldl (fun b o => markNeighbor g b (x + o.1) (y + o.2)) a)
        (x + o.1) (y + o.2) ≠ 0 := by
  induction l with
  | nil => intro a o h; exact absurd h (List.not_mem_nil o)
  | cons o2 t ih =>
    intro a o ho hin
    rw [List.foldl_cons]
    rcases List.mem_cons.mp ho with he | ht
    · subst he
      apply foldMark_nonzero_mono
      rw [markNeighbor_apply, if_pos ⟨hin, rfl, rfl⟩]
      exact lor_two_ne_zero _
    · exact ih _ o ht hin

theorem foldMark_source (g : Grid) (x y : Int) (l : List XY) :
    ∀ (a : Acc) (u v : Int),
      (l.foldl (fun b o => markNeighbor g b (x + o.1) (y + o.2)) a) u v ≠ 0 →
      a u v ≠ 0 ∨ ∃ o ∈ l, u = x + o.1 ∧ v = y + o.2 := by
  induction l with
  | nil => intro a u v h; exact Or.inl h
  | cons o t ih =>
    intro a u v h
    rw [List.foldl_cons] at h
    rcases ih _ u v h with h1 | ⟨o2, ho2, h2⟩
    · rw [markNeighbor_apply] at h1
      by_cases hc : inB g.W g.H (x + o.1) (y + o.2) ∧ u = x + o.1 ∧ v = y + o.2
      · exact Or.inr ⟨o, List.mem_cons_self _ _, hc.2⟩
      · rw [if_neg hc] at h1
        exact Or.inl h1
    · exact Or.inr ⟨o2, List.mem_cons_of_mem _ ho2, h2⟩

theorem markOrder_ne_zero : ∀ o ∈ markOrder, ¬(o.1 = 0 ∧ o.2 = 0) := by decide

theorem offsets_sub_markOrder : ∀ o ∈ offsets, o ∈ markOrder := by decide

theorem markOrder_sub_offsets : ∀ o ∈ markOrder, o ∈ offsets := by decide

theorem offsets_neg : ∀ o ∈ offsets, ((-o.1, -o.2) : XY) ∈ offsets := by decide

theorem markStep_bit0 (g : Grid) (a : Acc) (x y u v : Int) :
    markNeighbors g (setA a x y) x y u v &&& 1
      = if u = x ∧ v = y then 1 else a u v &&& 1 := by
  unfold markNeighbors
  rw [foldMark_bit0, setA_apply]
  split
  · rfl
  · rfl

theorem markStep_center (g : Grid) (a : Acc) (x y : Int) :
    markNeighbors g (setA a x y) x y x y = 1 := by
  unfold markNeighbors
  rw [foldMark_untouched, setA_apply, if_pos ⟨rfl, rfl⟩]
  intro o ho hc
  exact markOrder_ne_zero o ho (by constructor <;> omega)

theorem markStep_nonzero_mono (g : Grid) (a : Acc) (x y u v : Int)
    (h : a u v ≠ 0) :
    markNeighbors g (setA a x y) x y u v ≠ 0 := by
  unfold markNeighbors
  apply foldMark_nonzero_mono
  rw [setA_apply]
  split
  · exact one_ne_zero
  · exact h

theorem markStep_covers (g : Grid) (a : Acc) (x y : Int) (o : XY)
    (ho : o ∈ markOrder) (hin : inB g.W g.H (x + o.1) (y + o.2)) :
    markNeighbors g (setA a x y) x y (x + o.1) (y + o.2) ≠ 0 := by
  unfold markNeighbors
  exact foldMark_covers g x y markOrder _ o ho hin

theorem markStep_source (g : Grid) (a : Acc) (x y u v : Int)
    (h : markNeighbors g (setA a x y) x y u v ≠ 0) :
    a u v ≠ 0 ∨ (u = x ∧ v = y) ∨ ∃ o ∈ markOrder, u = x + o.1 ∧ v = y + o.2 := by
  unfold markNeighbors at h
  rcases foldMark_source g x y markOrder _ u v h with h1 | h1
  · rw [setA_apply] at h1
    by_cases hc : u = x ∧ v = y
    · exact Or.inr (Or.inl hc)
    · rw [if_neg hc] at h1
      exact Or.inl h1
  · exact Or.inr (Or.inr h1)

theorem markStep_oob (g : Grid) (a : Acc) (x y u v : Int)
    (hout : ¬ inB g.W g.H u v) (hne : ¬(u = x ∧ v = y)) :
    markNeighbors g (setA a x y) x y u v = a u v := by
  unfold markNeighbors
  rw [foldMark_oob g x y u v hout, setA_apply, if_neg hne]

end WallMap

namespace WallMap

theorem mem_pushFold (g : Grid) (x y : Int) (l : List XY) :
    ∀ (s : List XY) (c : XY),
      c ∈ l.foldl
        (fun s o => if open3x3 g (x + o.1) (y + o.2) then (x + o.1, y + o.2) :: s else s)
        s →
      c ∈ s ∨ ∃ o ∈ l, c = (x + o.1, y + o.2) ∧ open3x3 g c.1 c.2 = true := by
  induction l with
  | nil => intro s c h; exact Or.inl h
  | cons o t ih =>
    intro s c h
    rw [List.foldl_cons] at h
    rcases ih _ c h with h1 | ⟨o2, ho2, h2⟩
    · by_cases hopen : open3x3 g (x + o.1) (y + o.2) = true
      · rw [if_pos hopen] at h1
        rcases List.mem_cons.mp h1 with h2 | h2
        · refine Or.inr ⟨o, List.mem_cons_self _ _, h2, ?_⟩
          rw [h2]
          exact hopen
        · exact Or.inl h2
      · rw [if_neg hopen] at h1
        exact Or.inl h1
    · exact Or.inr ⟨o2, List.mem_cons_of_mem _ ho2, h2⟩

theorem pushFold_length (g : Grid) (x y : Int) (l : List XY) :
    ∀ s : List XY,
      (l.foldl
        (fun s o => if open3x3 g (x + o.1) (y + o.2) then (x + o.1, y + o.2) :: s else s)
        s).length ≤ s.length + l.length := by
  induction l with
  | nil => intro s; simp
  | cons o t ih =>
    intro s
    rw [List.foldl_cons]
    have h1 := ih (if open3x3 g (x + o.1) (y + o.2) then (x + o.1, y + o.2) :: s else s)
    have h2 : (if open3x3 g (x + o.1) (y + o.2)
        then (x + o.1, y + o.2) :: s else s).length ≤ s.length + 1 := by
      split
      · simp
      · simp
    simp only [List.length_cons]
    omega

theorem mem_pushCandidates (g : Grid) (x y : Int) (rest : List XY) (c : XY)
    (h : c ∈ pushCandidates g x y rest) :
    c ∈ rest ∨ ∃ o ∈ offsets, c = (x + o.1, y + o.2) ∧ open3x3 g c.1 c.2 = true := by
  exact mem_pushFold g x y offsets rest c h

theorem pushCandidates_length (g : Grid) (x y : Int) (rest : List XY) :
    (pushCandidates g x y rest).length ≤ rest.length + 8 := by
  exact pushFold_length g x y offsets rest

theorem open3x3_eq_true_iff (g : Grid) (x y : Int) :
    open3x3 g x y = true ↔
      MAP_DATA g x y = 0 ∧ ∀ o ∈ markOrder, MAP_DATA g (x + o.1) (y + o.2) = 0 := by
  simp only [open3x3, markOrder, List.forall_mem_cons, List.forall_mem_nil,
    Bool.and_eq_true, beq_iff_eq]
  norm_num
  tauto

theorem open3x3_interior (g : Grid) (x y : Int) (h : open3x3 g x y = true) :
    1 ≤ x ∧ x ≤ (g.W : Int) - 2 ∧ 1 ≤ y ∧ y ≤ (g.H : Int) - 2 := by
  rw [open3x3_eq_true_iff] at h
  have h1 := h.2 (1, 0) (by decide)
  have h2 := h.2 (-1, 0) (by decide)
  have h3 := h.2 (0, 1) (by decide)
  have h4 := h.2 (0, -1) (by decide)
  rw [MAP_DATA_eq_zero_iff] at h1 h2 h3 h4
  obtain ⟨⟨a1, a2, a3, a4⟩, -⟩ := h1
  obtain ⟨⟨b1, b2, b3, b4⟩, -⟩ := h2
  obtain ⟨⟨c1, c2, c3, c4⟩, -⟩ := h3
  obtain ⟨⟨d1, d2, d3, d4⟩, -⟩ := h4
  refine ⟨by omega, by omega, by omega, by omega⟩

theorem open3x3_inB (g : Grid) (x y : Int) (h : open3x3 g x y = true) :
    inB g.W g.H x y := by
  have := open3x3_interior g x y h
  exact ⟨by omega, by omega, by omega, by omega⟩

theorem stepMoore_symm {c d : XY} (h : stepMoore c d) : stepMoore d c := by
  obtain ⟨o, ho, he⟩ := h
  refine ⟨(-o.1, -o.2), offsets_neg o ho, ?_⟩
  rw [he]
  simp [Prod.ext_iff]

end WallMap

namespace WallMap

theorem xy_eq_of_parts {c : XY} {x y : Int} (h1 : c.1 = x) (h2 : c.2 = y) :
    c = (x, y) := by
  obtain ⟨c1, c2⟩ := c
  simp only at h1 h2
  rw [h1, h2]

theorem markStep_bitA_mono (g : Grid) (a : Acc) (x y u v : Int)
    (h : a u v &&& 1 = 1) :
    markNeighbors g (setA a x y) x y u v &&& 1 = 1 := by
  rw [markStep_bit0]
  split
  · rfl
  · exact h

theorem markStep_bitA_center (g : Grid) (a : Acc) (x y : Int) :
    markNeighbors g (setA a x y) x y x y &&& 1 = 1 := by
  rw [markStep_bit0, if_pos ⟨rfl, rfl⟩]

theorem floodLoop_preserve (g : Grid) (P : Acc → List XY → Prop)
    (hskip : ∀ a x y rest, P a ((x, y) :: rest) → ¬ a x y &&& 1 = 0 → P a rest)
    (hmark : ∀ a x y rest, P a ((x, y) :: rest) → a x y &&& 1 = 0 →
      P (markNeighbors g (setA a x y) x y) (pushCandidates g x y rest)) :
    ∀ fuel a s, P a s → P (floodLoop g fuel a s).1 (floodLoop g fuel a s).2 := by
  intro fuel
  induction fuel with
  | zero =>
    intro a s h
    simpa only [floodLoop] using h
  | succ n ih =>
    intro a s h
    rcases s with _ | ⟨⟨x, y⟩, rest⟩
    · simpa only [floodLoop] using h
    · by_cases hb : a x y &&& 1 = 0
      · have heq : floodLoop g (n + 1) a ((x, y) :: rest)
            = floodLoop g n (markNeighbors g (setA a x y) x y)
                (pushCandidates g x y rest) := by
          simp only [floodLoop]
          rw [if_neg (not_not_intro hb)]
        rw [heq]
        exact ih _ _ (hmark a x y rest h hb)
      · have heq : floodLoop g (n + 1) a ((x, y) :: rest) = floodLoop g n a rest := by
          simp only [floodLoop]
          rw [if_pos hb]
        rw [heq]
        exact ih _ _ (hskip a x y rest h hb)

theorem flood_nonzero_mono (g : Grid) (fuel : Nat) (a : Acc) (s : List XY)
    (u v : Int) (h : a u v ≠ 0) :
    (floodLoop g fuel a s).1 u v ≠ 0 :=
  floodLoop_preserve g (fun a2 _ => a2 u v ≠ 0)
    (fun _ _ _ _ hP _ => hP)
    (fun a2 x y _ hP _ => markStep_nonzero_mono g a2 x y u v hP)
    fuel a s h

theorem flood_bitA_mono (g : Grid) (fuel : Nat) (a : Acc) (s : List XY)
    (u v : Int) (h : a u v &&& 1 = 1) :
    (floodLoop g fuel a s).1 u v &&& 1 = 1 :=
  floodLoop_preserve g (fun a2 _ => a2 u v &&& 1 = 1)
    (fun _ _ _ _ hP _ => hP)
    (fun a2 x y _ hP _ => markStep_bitA_mono g a2 x y u v hP)
    fuel a s h

theorem flood_bitA_pred (g : Grid) (Q : XY → Prop)
    (hQ : ∀ d : XY, open3x3 g d.1 d.2 = true → Q d) (fuel : Nat) (a : Acc)
    (s : List XY) (hs : ∀ c ∈ s, Q c)
    (ha : ∀ c : XY, a c.1 c.2 &&& 1 = 1 → Q c) :
    (∀ c ∈ (floodLoop g fuel a s).2, Q c) ∧
    (∀ c : XY, (floodLoop g fuel a s).1 c.1 c.2 &&& 1 = 1 → Q c) := by
  apply floodLoop_preserve g
    (fun a2 s2 => (∀ c ∈ s2, Q c) ∧ (∀ c : XY, a2 c.1 c.2 &&& 1 = 1 → Q c))
  · intro a2 x y rest hP _
    exact ⟨fun c hc => hP.1 c (List.mem_cons_of_mem _ hc), hP.2⟩
  · intro a2 x y rest hP _
    constructor
    · intro c hc
      rcases mem_pushCandidates g x y rest c hc with h1 | ⟨o, _, _, h2⟩
      · exact hP.1 c (List.mem_cons_of_mem _ h1)
      · exact hQ c h2
    · intro c hc
      rw [markStep_bit0] at hc
      by_cases he : c.1 = x ∧ c.2 = y
      · rw [xy_eq_of_parts he.1 he.2]
        exact hP.1 (x, y) (List.mem_cons_self _ _)
      · rw [if_neg he] at hc
        exact hP.2 c hc
  · exact ⟨hs, ha⟩

theorem flood_neighbor_marked (g : Grid) (fuel : Nat) (a : Acc) (s : List XY)
    (ha : ∀ c : XY, a c.1 c.2 &&& 1 = 1 →
      ∀ d : XY, (d = c ∨ stepMoore c d) → inB g.W g.H d.1 d.2 → a d.1 d.2 ≠ 0) :
    ∀ c : XY, (floodLoop g fuel a s).1 c.1 c.2 &&& 1 = 1 →
      ∀ d : XY, (d = c ∨ stepMoore c d) → inB g.W g.H d.1 d.2 →
        (floodLoop g fuel a s).1 d.1 d.2 ≠ 0 := by
  apply floodLoop_preserve g
    (fun a2 _ => ∀ c : XY, a2 c.1 c.2 &&& 1 = 1 →
      ∀ d : XY, (d = c ∨ stepMoore c d) → inB g.W g.H d.1 d.2 → a2 d.1 d.2 ≠ 0)
  · intro _ _ _ _ hP _
    exact hP
  · intro a2 x y rest hP _
    intro c hc d hd hin
    rw [markStep_bit0] at hc
    by_cases he : c.1 = x ∧ c.2 = y
    · have hcxy : c = (x, y) := xy_eq_of_parts he.1 he.2
      rcases hd with hd | hd
      · rw [hd, hcxy]
        rw [markStep_center]
        exact one_ne_zero
      · rw [hcxy] at hd
        obtain ⟨o, ho, hde⟩ := hd
        rw [hde]
        exact markStep_covers g a2 x y o (offsets_sub_markOrder o ho)
          (by rw [hde] at hin; exact hin)
    · rw [if_neg he] at hc
      exact markStep_nonzero_mono g a2 x y d.1 d.2 (hP c hc d hd hin)
  · exact ha

theorem flood_nonzero_source (g : Grid) (fuel : Nat) (a : Acc) (s : List XY)
    (ha : ∀ c : XY, a c.1 c.2 ≠ 0 →
      a c.1 c.2 &&& 1 = 1 ∨ ∃ p : XY, stepMoore c p ∧ a p.1 p.2 &&& 1 = 1) :
    ∀ c : XY, (floodLoop g fuel a s).1 c.1 c.2 ≠ 0 →
      (floodLoop g fuel a s).1 c.1 c.2 &&& 1 = 1 ∨
      ∃ p : XY, stepMoore c p ∧ (floodLoop g fuel a s).1 p.1 p.2 &&& 1 = 1 := by
  apply floodLoop_preserve g
    (fun a2 _ => ∀ c : XY, a2 c.1 c.2 ≠ 0 →
      a2 c.1 c.2 &&& 1 = 1 ∨ ∃ p : XY, stepMoore c p ∧ a2 p.1 p.2 &&& 1 = 1)
  · intro _ _ _ _ hP _
    exact hP
  · intro a2 x y rest hP _
    intro c hc
    rcases markStep_source g a2 x y c.1 c.2 hc with h1 | h1 | ⟨o, ho, h1, h2⟩
    · rcases hP c h1 with h2 | ⟨p, hp1, hp2⟩
      · exact Or.inl (markStep_bitA_mono g a2 x y c.1 c.2 h2)
      · exact Or.inr ⟨p, hp1, markStep_bitA_mono g a2 x y p.1 p.2 hp2⟩
    · left
      rw [markStep_bit0, if_pos h1]
    · right
      refine ⟨(x, y), ⟨(-o.1, -o.2),
        offsets_neg o (markOrder_sub_offsets o ho), ?_⟩, ?_⟩
      · apply Prod.ext <;> simp <;> omega
      · exact markStep_bitA_center g a2 x y
  · exact ha

theorem flood_chain (g : Grid) (sc : XY) (fuel : Nat) (a : Acc) (s : List XY)
    (hs : ∀ c ∈ s, c = sc ∨ ∃ p : XY, a p.1 p.2 &&& 1 = 1 ∧ stepMoore p c)
    (ha : ∀ c : XY, a c.1 c.2 &&& 1 = 1 →
      Relation.ReflTransGen (fun u v => stepMoore u v ∧ a v.1 v.2 &&& 1 = 1) sc c) :
    ∀ c : XY, (floodLoop g fuel a s).1 c.1 c.2 &&& 1 = 1 →
      Relation.ReflTransGen
        (fun u v => stepMoore u v ∧ (floodLoop g fuel a s).1 v.1 v.2 &&& 1 = 1)
        sc c := by
  have key := floodLoop_preserve g
    (fun a2 s2 =>
      (∀ c ∈ s2, c = sc ∨ ∃ p : XY, a2 p.1 p.2 &&& 1 = 1 ∧ stepMoore p c) ∧
      (∀ c : XY, a2 c.1 c.2 &&& 1 = 1 →
        Relation.ReflTransGen (fun u v => stepMoore u v ∧ a2 v.1 v.2 &&& 1 = 1) sc c))
    ?_ ?_ fuel a s ⟨hs, ha⟩
  · exact key.2
  · intro a2 x y rest hP _
    exact ⟨fun c hc => hP.1 c (List.mem_cons_of_mem _ hc), hP.2⟩
  · intro a2 x y rest hP _
    have hmono : ∀ c : XY,
        Relation.ReflTransGen (fun u v => stepMoore u v ∧ a2 v.1 v.2 &&& 1 = 1) sc c →
        Relation.ReflTransGen
          (fun u v => stepMoore u v ∧
            markNeighbors g (setA a2 x y) x y v.1 v.2 &&& 1 = 1) sc c := by
      intro c hc
      apply Relation.ReflTransGen.mono ?_ hc
      intro u v hv
      exact ⟨hv.1, markStep_bitA_mono g a2 x y v.1 v.2 hv.2⟩
    have hxy : Relation.ReflTransGen
        (fun u v => stepMoore u v ∧
          markNeighbors g (setA a2 x y) x y v.1 v.2 &&& 1 = 1) sc (x, y) := by
      rcases hP.1 (x, y) (List.mem_cons_self _ _) with he | ⟨p, hp1, hp2⟩
      · rw [he]
      · exact (hmono p (hP.2 p hp1)).tail ⟨hp2, markStep_bitA_center g a2 x y⟩
    constructor
    · intro c hc
      rcases mem_pushCandidates g x y rest c hc with h1 | ⟨o, ho, h1, _⟩
      · rcases hP.1 c (List.mem_cons_of_mem _ h1) with he | ⟨p, hp1, hp2⟩
        · exact Or.inl he
        · exact Or.inr ⟨p, markStep_bitA_mono g a2 x y p.1 p.2 hp1, hp2⟩
      · exact Or.inr ⟨(x, y), markStep_bitA_center g a2 x y, ⟨o, ho, h1⟩⟩
    · intro c hc
      rw [markStep_bit0] at hc
      by_cases he : c.1 = x ∧ c.2 = y
      · rw [xy_eq_of_parts he.1 he.2]
        exact hxy
      · rw [if_neg he] at hc
        exact hmono c (hP.2 c hc)

end WallMap

namespace WallMap

theorem floodLoop_step_mark (g : Grid) (n : Nat) (a : Acc) (x y : Int)
    (rest : List XY) (hb : a x y &&& 1 = 0) :
    floodLoop g (n + 1) a ((x, y) :: rest)
      = floodLoop g n (markNeighbors g (setA a x y) x y)
          (pushCandidates g x y rest) := by
  simp only [floodLoop]
  rw [if_neg (not_not_intro hb)]

theorem floodLoop_step_skip (g : Grid) (n : Nat) (a : Acc) (x y : Int)
    (rest : List XY) (hb : ¬ a x y &&& 1 = 0) :
    floodLoop g (n + 1) a ((x, y) :: rest) = floodLoop g n a rest := by
  simp only [floodLoop]
  rw [if_pos hb]

theorem unmarkedCount_mark (g : Grid) (a : Acc) (x y : Int)
    (hin : inB g.W g.H x y) (hb : a x y &&& 1 = 0) :
    unmarkedCount g (markNeighbors g (setA a x y) x y) + 1 = unmarkedCount g a := by
  obtain ⟨hx0, hxW, hy0, hyH⟩ := hin
  have htgt : ((x.toNat, y.toNat) : Nat × Nat) ∈
      ((Finset.range g.W) ×ˢ (Finset.range g.H)).filter
        (fun p => a (p.1 : Int) (p.2 : Int) &&& 1 = 0) := by
    rw [Finset.mem_filter, Finset.mem_product, Finset.mem_range, Finset.mem_range]
    refine ⟨⟨by omega, by omega⟩, ?_⟩
    rw [Int.toNat_of_nonneg hx0, Int.toNat_of_nonneg hy0]
    exact hb
  have hset : ((Finset.range g.W) ×ˢ (Finset.range g.H)).filter
        (fun p => markNeighbors g (setA a x y) x y (p.1 : Int) (p.2 : Int) &&& 1 = 0)
      = (((Finset.range g.W) ×ˢ (Finset.range g.H)).filter
          (fun p => a (p.1 : Int) (p.2 : Int) &&& 1 = 0)).erase (x.toNat, y.toNat) := by
    ext p
    rw [Finset.mem_erase, Finset.mem_filter, Finset.mem_filter]
    constructor
    · intro hmem
      obtain ⟨hp, hval⟩ := hmem
      rw [markStep_bit0] at hval
      by_cases he : (p.1 : Int) = x ∧ (p.2 : Int) = y
      · rw [if_pos he] at hval
        exact absurd hval one_ne_zero
      · rw [if_neg he] at hval
        refine ⟨?_, hp, hval⟩
        intro hpe
        apply he
        rw [hpe]
        exact ⟨Int.toNat_of_nonneg hx0, Int.toNat_of_nonneg hy0⟩
    · intro hmem
      obtain ⟨hne, hp, hval⟩ := hmem
      refine ⟨hp, ?_⟩
      rw [markStep_bit0]
      have he : ¬((p.1 : Int) = x ∧ (p.2 : Int) = y) := by
        intro hc
        apply hne
        obtain ⟨hc1, hc2⟩ := hc
        obtain ⟨p1, p2⟩ := p
        apply Prod.ext
        · show p1 = x.toNat
          simp only at hc1
          omega
        · show p2 = y.toNat
          simp only at hc2
          omega
      rw [if_neg he]
      exact hval
  unfold unmarkedCount
  rw [hset, Finset.card_erase_of_mem htgt]
  have hpos : 0 < (((Finset.range g.W) ×ˢ (Finset.range g.H)).filter
      (fun p => a (p.1 : Int) (p.2 : Int) &&& 1 = 0)).card :=
    Finset.card_pos.mpr ⟨_, htgt⟩
  omega

theorem floodLoop_empties (g : Grid) :
    ∀ (fuel : Nat) (a : Acc) (s : List XY),
      (∀ c ∈ s, inB g.W g.H c.1 c.2) →
      9 * unmarkedCount g a + s.length ≤ fuel →
      (floodLoop g fuel a s).2 = [] := by
  intro fuel
  induction fuel with
  | zero =>
    intro a s _ hpot
    have hnil : s = [] := by
      cases s with
      | nil => rfl
      | cons c t =>
        rw [List.length_cons] at hpot
        omega
    rw [hnil]
    rfl
  | succ n ih =>
    intro a s hs hpot
    rcases s with _ | ⟨⟨x, y⟩, rest⟩
    · rfl
    · by_cases hb : a x y &&& 1 = 0
      · rw [floodLoop_step_mark g n a x y rest hb]
        have hin : inB g.W g.H x y := hs (x, y) (List.mem_cons_self _ _)
        have hu := unmarkedCount_mark g a x y hin hb
        have hl := pushCandidates_length g x y rest
        apply ih
        · intro c hc
          rcases mem_pushCandidates g x y rest c hc with h1 | ⟨o, _, _, h2⟩
          · exact hs c (List.mem_cons_of_mem _ h1)
          · exact open3x3_inB g c.1 c.2 h2
        · rw [List.length_cons] at hpot
          omega
      · rw [floodLoop_step_skip g n a x y rest hb]
        apply ih
        · intro c hc
          exact hs c (List.mem_cons_of_mem _ hc)
        · rw [List.length_cons] at hpot
          omega

theorem flood_oob_unchanged (g : Grid) (fuel : Nat) (a : Acc) (s : List XY)
    (hs : ∀ c ∈ s, inB g.W g.H c.1 c.2) (u v : Int)
    (hout : ¬ inB g.W g.H u v) :
    (floodLoop g fuel a s).1 u v = a u v := by
  have key := floodLoop_preserve g
    (fun a2 s2 => a2 u v = a u v ∧ ∀ c ∈ s2, inB g.W g.H c.1 c.2)
    ?_ ?_ fuel a s ⟨rfl, hs⟩
  · exact key.1
  · intro a2 x y rest hP _
    exact ⟨hP.1, fun c hc => hP.2 c (List.mem_cons_of_mem _ hc)⟩
  · intro a2 x y rest hP _
    have hne : ¬(u = x ∧ v = y) := by
      intro he
      apply hout
      rw [he.1, he.2]
      exact hP.2 (x, y) (List.mem_cons_self _ _)
    constructor
    · rw [markStep_oob g a2 x y u v hout hne]
      exact hP.1
    · intro c hc
      rcases mem_pushCandidates g x y rest c hc with h1 | ⟨o, _, _, h2⟩
      · exact hP.2 c (List.mem_cons_of_mem _ h1)
      · exact open3x3_inB g c.1 c.2 h2

theorem flood_stack_inB (g : Grid) (fuel : Nat) (a : Acc) (s : List XY)
    (hs : ∀ c ∈ s, inB g.W g.H c.1 c.2) :
    ∀ c ∈ (floodLoop g fuel a s).2, inB g.W g.H c.1 c.2 := by
  apply floodLoop_preserve g (fun _ s2 => ∀ c ∈ s2, inB g.W g.H c.1 c.2)
  · intro _ _ _ _ hP _
    exact fun c hc => hP c (List.mem_cons_of_mem _ hc)
  · intro a2 x y rest hP _
    intro c hc
    rcases mem_pushCandidates g x y rest c hc with h1 | ⟨o, _, _, h2⟩
    · exact hP c (List.mem_cons_of_mem _ h1)
    · exact open3x3_inB g c.1 c.2 h2
  · exact hs

theorem mem_seedBlock_iff (g : Grid) (c : XY) :
    c ∈ seedBlock g ↔
      seedX g - 1 ≤ c.1 ∧ c.1 ≤ seedX g + 1 ∧
      seedY g - 1 ≤ c.2 ∧ c.2 ≤ seedY g + 1 := by
  obtain ⟨c1, c2⟩ := c
  simp [seedBlock, Prod.ext_iff]
  omega

theorem carve_cell_seedBlock (g : Grid) (c : XY) (hc : c ∈ seedBlock g) :
    (carve g).cell c.1 c.2 = false := by
  rw [mem_seedBlock_iff] at hc
  show (if seedX g - 1 ≤ c.1 ∧ c.1 ≤ seedX g + 1 ∧
        seedY g - 1 ≤ c.2 ∧ c.2 ≤ seedY g + 1
        then false else g.cell c.1 c.2) = false
  rw [if_pos hc]

theorem markOrder_bounds :
    ∀ o ∈ markOrder, -1 ≤ o.1 ∧ o.1 ≤ 1 ∧ -1 ≤ o.2 ∧ o.2 ≤ 1 := by decide

theorem carve_seed_open3x3 (g : Grid) (hW : 3 ≤ g.W) (hH : 3 ≤ g.H) :
    open3x3 (carve g) (seedX g) (seedY g) = true := by
  rw [open3x3_eq_true_iff]
  constructor
  · rw [MAP_DATA_eq_zero_iff]
    constructor
    · show inB g.W g.H (seedX g) (seedY g)
      simp only [seedX, seedY, inB]
      refine ⟨by omega, by omega, by omega, by omega⟩
    · exact carve_cell_seedBlock g (seedX g, seedY g)
        (by rw [mem_seedBlock_iff]; refine ⟨by omega, by omega, by omega, by omega⟩)
  · intro o ho
    have hob := markOrder_bounds o ho
    rw [MAP_DATA_eq_zero_iff]
    constructor
    · show inB g.W g.H (seedX g + o.1) (seedY g + o.2)
      simp only [seedX, seedY, inB] at *
      refine ⟨by omega, by omega, by omega, by omega⟩
    · exact carve_cell_seedBlock g (seedX g + o.1, seedY g + o.2)
        (by rw [mem_seedBlock_iff]; exact ⟨by omega, by omega, by omega, by omega⟩)

theorem floodAcc_bitA_seed (g1 : Grid) :
    floodAcc g1 (seedX g1) (seedY g1) &&& 1 = 1 := by
  unfold floodAcc fillFuel seedXY
  have hb0 : (fun _ _ => (0 : Nat)) (seedX g1) (seedY g1) &&& 1 = 0 := by simp
  rw [floodLoop_step_mark g1 (9 * g1.W * g1.H) (fun _ _ => 0) (seedX g1) (seedY g1)
    [] hb0]
  apply flood_bitA_mono
  exact markStep_bitA_center g1 (fun _ _ => 0) (seedX g1) (seedY g1)

theorem rtg_last {Q : XY → Prop} {a b : XY}
    (h : Relation.ReflTransGen (fun u v => stepMoore u v ∧ Q v) a b) :
    b = a ∨ Q b := by
  induction h with
  | refl => exact Or.inl rfl
  | tail _ hedge _ => exact Or.inr hedge.2

theorem rtg_reverse {Q : XY → Prop} {a b : XY} (ha : Q a)
    (h : Relation.ReflTransGen (fun u v => stepMoore u v ∧ Q v) a b) :
    Relation.ReflTransGen (fun u v => stepMoore u v ∧ Q v) b a := by
  induction h with
  | refl => exact Relation.ReflTransGen.refl
  | tail hab hedge ih =>
    apply Relation.ReflTransGen.head ?_ ih
    refine ⟨stepMoore_symm hedge.1, ?_⟩
    rcases rtg_last hab with he | hq
    · rw [he]
      exact ha
    · exact hq

end WallMap

namespace WallMap

theorem countP_MAP_eq_sum (g : Grid) :
    ∀ l : List XY,
      l.countP (fun c => MAP_DATA g c.1 c.2 == 1)
        = l.foldr (fun c n => MAP_DATA g c.1 c.2 + n) 0 := by
  intro l
  induction l with
  | nil => rfl
  | cons c t ih =>
    rw [List.countP_cons, List.foldr_cons, ih]
    rcases MAP_DATA_cases g c.1 c.2 with h | h <;> rw [h] <;> simp [Nat.add_comm]

theorem mooreCount_eq_countP (g : Grid) (x y : Int) :
    mooreCount g x y
      = (moorePositions x y).countP (fun c => MAP_DATA g c.1 c.2 == 1) := by
  rw [countP_MAP_eq_sum]
  simp only [moorePositions, List.foldr_cons, List.foldr_nil]
  unfold mooreCount
  omega

/-- Claim C3: one smoothing pass sets the new value of every cell to wall
exactly when the number of wall cells among the nine cells of its 3x3
Moore neighborhood in the pre-pass grid (self included, out-of-bounds
counted as wall) exceeds 4, and to open otherwise; the new value is a
function of the pre-pass grid only (the pass writes into a separate
buffer, so `smoothPass g` reads all nine neighbors from `g`), and
`SmoothMapCells` is four such passes. -/
theorem c3_smoother_pass (g : Grid) (x y : Int) (hin : inB g.W g.H x y) :
    ((smoothPass g).cell x y = true ↔
      4 < (moorePositions x y).countP (fun c => MAP_DATA g c.1 c.2 == 1)) ∧
    (smoothPass g).cell x y = (if mooreCount g x y ≤ 4 then false else true) ∧
    SmoothMapCells g = smoothPass (smoothPass (smoothPass (smoothPass g))) := by
  refine ⟨?_, rfl, rfl⟩
  rw [← mooreCount_eq_countP]
  show (if mooreCount g x y ≤ 4 then false else true) = true ↔ 4 < mooreCount g x y
  by_cases hc : mooreCount g x y ≤ 4
  · rw [if_pos hc]
    constructor
    · intro hfalse
      exact absurd hfalse Bool.false_ne_true
    · intro h4
      omega
  · rw [if_neg hc]
    constructor
    · intro _
      omega
    · intro _
      rfl

/-- Claim C3 witness: the threshold equivalence evaluated on a concrete
all-wall grid cell. -/
theorem c3_smoother_pass_witness :
    (smoothPass gAll).cell 2 2 = true ↔
      4 < (moorePositions 2 2).countP (fun c => MAP_DATA gAll c.1 c.2 == 1) :=
  (c3_smoother_pass gAll 2 2 (by decide)).1

/-- Claim C4: an in-bounds open cell whose accessibility value is 0 is
marked accessible by the hole-preservation pass, and then left open by the
seal pass, exactly when the sum of its four orthogonal neighbor wall
values is 3; otherwise it stays unmarked and the seal pass turns it into
wall. -/
theorem c4_hole_preservation (g : Grid) (a : Acc) (x y : Int)
    (hin : inB g.W g.H x y) (hopen : g.cell x y = false) (ha : a x y = 0) :
    (orthCount g x y = 3 →
      holePass g a x y = 1 ∧ (sealPass g (holePass g a)).cell x y = false) ∧
    (orthCount g x y ≠ 3 →
      holePass g a x y = 0 ∧ (sealPass g (holePass g a)).cell x y = true) := by
  constructor
  · intro h3
    have hh : holePass g a x y = 1 := by
      unfold holePass
      rw [if_pos ⟨hin, hopen, ha, h3⟩]
    refine ⟨hh, ?_⟩
    show (if inB g.W g.H x y ∧ g.cell x y = false ∧ holePass g a x y = 0 then true
          else g.cell x y) = false
    rw [if_neg, hopen]
    intro hcon
    rw [hh] at hcon
    exact one_ne_zero hcon.2.2
  · intro h3
    have hh : holePass g a x y = 0 := by
      unfold holePass
      rw [if_neg (fun hcon => h3 hcon.2.2.2)]
      exact ha
    refine ⟨hh, ?_⟩
    show (if inB g.W g.H x y ∧ g.cell x y = false ∧ holePass g a x y = 0 then true
          else g.cell x y) = true
    rw [if_pos ⟨hin, hopen, hh⟩]

/-- Claim C4 witness: the pocket cell `(1,1)` of `gPocket` has orthogonal
wall sum 3, gets marked by the hole-preservation pass, and survives the
seal pass. -/
theorem c4_hole_preservation_witness :
    holePass gPocket (fun _ _ => 0) 1 1 = 1 ∧
    (sealPass gPocket (holePass gPocket (fun _ _ => 0))).cell 1 1 = false :=
  (c4_hole_preservation gPocket (fun _ _ => 0) 1 1 (by decide) (by decide)
    rfl).1 (by decide)

/-- Claim C5: for every finalized grid and random draw, a wall cell gets
the fixed index `0x80`; an open cell gets the 4-bit orthogonal wall mask
(right = bit 0, down = bit 1, left = bit 2, up = bit 3, out-of-bounds as
wall) combined with the draw restricted to `0x70`, so the low four bits of
the emitted index equal the mask for every draw; in particular an open
cell with wall neighbors right and below and open neighbors left and above
has adjacency bits `0b0011` for every draw. -/
theorem c5_tile_selector (g : Grid) (x y : Int) (r : Nat)
    (hin : inB g.W g.H x y) :
    (g.cell x y = true → tileIndex g x y r = WALL_TILE_INDEX) ∧
    (g.cell x y = false →
      tileIndex g x y r = adjMask g x y ||| (r &&& VARIATION_MASK) ∧
      tileIndex g x y r &&& 15 = adjMask g x y) ∧
    (g.cell x y = false → MAP_DATA g (x+1) y = 1 → MAP_DATA g x (y+1) = 1 →
      MAP_DATA g (x-1) y = 0 → MAP_DATA g x (y-1) = 0 →
      adjMask g x y = 3 ∧ tileIndex g x y r &&& 15 = 3) := by
  have hmask16 : adjMask g x y < 16 := by
    unfold adjMask
    rcases MAP_DATA_cases g (x+1) y with h1 | h1 <;>
      rcases MAP_DATA_cases g x (y+1) with h2 | h2 <;>
        rcases MAP_DATA_cases g (x-1) y with h3 | h3 <;>
          rcases MAP_DATA_cases g x (y-1) with h4 | h4 <;>
            rw [h1, h2, h3, h4] <;> decide
  refine ⟨?_, ?_, ?_⟩
  · intro hw
    unfold tileIndex
    rw [if_pos hw]
  · intro hopen
    have hno : ¬ (g.cell x y = true) := by
      rw [hopen]
      exact Bool.false_ne_true
    have hidx : tileIndex g x y r = adjMask g x y ||| (r &&& VARIATION_MASK) := by
      unfold tileIndex
      rw [if_neg hno]
    refine ⟨hidx, ?_⟩
    rw [hidx]
    exact lor_masked_and15 (adjMask g x y) r hmask16
  · intro hopen h1 h2 h3 h4
    have hno : ¬ (g.cell x y = true) := by
      rw [hopen]
      exact Bool.false_ne_true
    have hadj : adjMask g x y = 3 := by
      unfold adjMask
      rw [h1, h2, h3, h4]
      decide
    refine ⟨hadj, ?_⟩
    have hidx : tileIndex g x y r = adjMask g x y ||| (r &&& VARIATION_MASK) := by
      unfold tileIndex
      rw [if_neg hno]
    rw [hidx, hadj]
    exact lor_masked_and15 3 r (by decide)

/-- Claim C5 witness: the tile-encoding scenario evaluated at cell `(1,1)`
of `gTile` with draw 37. -/
theorem c5_tile_selector_witness :
    adjMask gTile 1 1 = 3 ∧ tileIndex gTile 1 1 37 &&& 15 = 3 :=
  (c5_tile_selector gTile 1 1 37 (by decide)).2.2 (by decide) (by decide)
    (by decide) (by decide) (by decide)

end WallMap

namespace WallMap

/-- Claim C6: the thick-brush flood fill of `FillMapHoles` terminates on
every grid: starting from the all-zero accessibility map and the seed
stack, `fillFuel = 9*W*H + 1` iterations always empty the stack, because a
pop either discards an already-visited coordinate or marks an unmarked
in-bounds cell (at most `W*H` times) while pushing at most eight new
entries. -/
theorem c6_flood_terminates (g : Grid) (hW : 1 ≤ g.W) (hH : 1 ≤ g.H) :
    (floodLoop (carve g) (fillFuel (carve g)) (fun _ _ => 0)
      [seedXY (carve g)]).2 = [] := by
  apply floodLoop_empties
  · intro c hc
    rw [List.mem_singleton] at hc
    rw [hc]
    show inB (carve g).W (carve g).H (seedXY (carve g)).1 (seedXY (carve g)).2
    simp only [carve, seedXY, seedX, seedY, inB]
    refine ⟨by omega, by omega, by omega, by omega⟩
  · have hcard : unmarkedCount (carve g) (fun _ _ => 0)
        ≤ (carve g).W * (carve g).H := by
      unfold unmarkedCount
      have h1 := Finset.card_filter_le
        ((Finset.range (carve g).W) ×ˢ (Finset.range (carve g).H))
        (fun p : Nat × Nat => (fun _ _ => (0 : Nat)) (p.1 : Int) (p.2 : Int) &&& 1 = 0)
      rw [Finset.card_product, Finset.card_range, Finset.card_range] at h1
      exact h1
    show 9 * unmarkedCount (carve g) (fun _ _ => 0) + [seedXY (carve g)].length
        ≤ fillFuel (carve g)
    have hfuel : fillFuel (carve g) = 9 * ((carve g).W * (carve g).H) + 1 := by
      unfold fillFuel
      ring
    rw [hfuel, List.length_singleton]
    omega

/-- Claim C6 witness: the flood-fill loop inside `FillMapHoles gAll` exits
with an empty stack within its fuel bound. -/
theorem c6_flood_terminates_witness :
    (floodLoop (carve gAll) (fillFuel (carve gAll)) (fun _ _ => 0)
      [seedXY (carve gAll)]).2 = [] :=
  c6_flood_terminates gAll (by decide) (by decide)

/-- Claim C7: two runs of the whole pipeline with the same dimensions and
pointwise-equal random sequences produce the same final occupancy grid
(pointwise) and the same tile-index array; the wall probability, smoothing
iteration count and threshold are the fixed constants of the source. -/
theorem c7_deterministic (W H : Nat) (r1 r2 : Nat → Nat)
    (h : ∀ i, r1 i = r2 i) :
    (∀ x y : Int, (pipeline W H r1).1.cell x y = (pipeline W H r2).1.cell x y) ∧
    (pipeline W H r1).2 = (pipeline W H r2).2 := by
  have he : r1 = r2 := funext h
  subst he
  exact ⟨fun _ _ => rfl, rfl⟩

/-- Claim C7 witness: determinism instantiated on a concrete 4x4 run with
two syntactically different but pointwise-equal sequences. -/
theorem c7_deterministic_witness :
    (∀ x y : Int, (pipeline 4 4 (fun i => i)).1.cell x y
        = (pipeline 4 4 (fun i => i + 0)).1.cell x y) ∧
    (pipeline 4 4 (fun i => i)).2 = (pipeline 4 4 (fun i => i + 0)).2 :=
  c7_deterministic 4 4 (fun i => i) (fun i => i + 0) (fun _ => rfl)

/-- Claim C8: the seal pass is idempotent: for every occupancy grid and
every accessibility map, sealing twice gives the same grid as sealing
once. -/
theorem c8_seal_idempotent (g : Grid) (a : Acc) :
    sealPass (sealPass g a) a = sealPass g a := by
  show Grid.mk g.W g.H _ = Grid.mk g.W g.H _
  congr 1
  funext x y
  show (if inB g.W g.H x y ∧ (sealPass g a).cell x y = false ∧ a x y = 0 then true
        else (sealPass g a).cell x y) = (sealPass g a).cell x y
  by_cases hc : inB g.W g.H x y ∧ (sealPass g a).cell x y = false ∧ a x y = 0
  · exfalso
    obtain ⟨hin, hcell, ha⟩ := hc
    revert hcell
    show ¬ ((if inB g.W g.H x y ∧ g.cell x y = false ∧ a x y = 0 then true
             else g.cell x y) = false)
    by_cases hc1 : inB g.W g.H x y ∧ g.cell x y = false ∧ a x y = 0
    · rw [if_pos hc1]
      simp
    · rw [if_neg hc1]
      intro hg
      exact hc1 ⟨hin, hg, ha⟩
  · rw [if_neg hc]

/-- Claim C10: pushed flood-fill coordinates are interior (a coordinate
passing the 3x3-all-open test satisfies `1 ≤ x ≤ W-2` and `1 ≤ y ≤ H-2`),
the loop never writes the accessibility map outside the grid bounds as
long as the stack holds only in-bounds coordinates, and the seed
`(W/2, H/2)` of the reference 160x160 grid is interior. -/
theorem c10_flood_write_safety (g : Grid) :
    (∀ (x y : Int) (rest : List XY) (c : XY),
      c ∈ pushCandidates g x y rest → c ∈ rest ∨
        (1 ≤ c.1 ∧ c.1 ≤ (g.W : Int) - 2 ∧ 1 ≤ c.2 ∧ c.2 ≤ (g.H : Int) - 2)) ∧
    (∀ (fuel : Nat) (a : Acc) (s : List XY) (u v : Int),
      (∀ c ∈ s, inB g.W g.H c.1 c.2) → ¬ inB g.W g.H u v →
      (floodLoop g fuel a s).1 u v = a u v) ∧
    (1 ≤ seedX g160 ∧ seedX g160 ≤ (g160.W : Int) - 2 ∧
     1 ≤ seedY g160 ∧ seedY g160 ≤ (g160.H : Int) - 2) := by
  refine ⟨?_, ?_, ?_⟩
  · intro x y rest c hc
    rcases mem_pushCandidates g x y rest c hc with h1 | ⟨o, _, _, h2⟩
    · exact Or.inl h1
    · exact Or.inr (open3x3_interior g c.1 c.2 h2)
  · intro fuel a s u v hs hout
    exact flood_oob_unchanged g fuel a s hs u v hout
  · refine ⟨?_, ?_, ?_, ?_⟩ <;> decide

/-- Claim C10 witness: an out-of-bounds accessibility entry is untouched
by a concrete flood-fill run. -/
theorem c10_flood_write_safety_witness :
    (floodLoop gAll 3 (fun _ _ => 0) [((4 : Int), (4 : Int))]).1 (-1) (-1) = 0 :=
  (c10_flood_write_safety gAll).2.1 3 (fun _ _ => 0) [(4, 4)] (-1) (-1)
    (by decide) (by decide)

end WallMap

namespace WallMap

theorem mem_offsets_of_bounds (dx dy : Int) (h1 : -1 ≤ dx) (h2 : dx ≤ 1)
    (h3 : -1 ≤ dy) (h4 : dy ≤ 1) (h5 : ¬(dx = 0 ∧ dy = 0)) :
    ((dx, dy) : XY) ∈ offsets := by
  interval_cases dx <;> interval_cases dy <;> simp_all [offsets]

theorem holePass_ne_zero (g : Grid) (a : Acc) (x y : Int) (h : a x y ≠ 0) :
    holePass g a x y ≠ 0 := by
  unfold holePass
  split
  · exact one_ne_zero
  · exact h

theorem sealPass_open_of_ne_zero (g : Grid) (a : Acc) (x y : Int)
    (hopen : g.cell x y = false) (ha : a x y ≠ 0) :
    (sealPass g a).cell x y = false := by
  show (if inB g.W g.H x y ∧ g.cell x y = false ∧ a x y = 0 then true
        else g.cell x y) = false
  rw [if_neg (fun hc => ha hc.2.2), hopen]

theorem floodAcc_seed_nbhd (g1 : Grid) (d : XY)
    (hd : d = seedXY g1 ∨ stepMoore (seedXY g1) d)
    (hin : inB g1.W g1.H d.1 d.2) :
    floodAcc g1 d.1 d.2 ≠ 0 := by
  have ha0 : ∀ c : XY, (fun _ _ => (0 : Nat)) c.1 c.2 &&& 1 = 1 → ∀ d2 : XY,
      (d2 = c ∨ stepMoore c d2) → inB g1.W g1.H d2.1 d2.2 →
      (fun _ _ => (0 : Nat)) d2.1 d2.2 ≠ 0 := by
    intro c hc
    simp at hc
  have key := flood_neighbor_marked g1 (fillFuel g1) (fun _ _ => 0) [seedXY g1] ha0
  exact key (seedXY g1) (floodAcc_bitA_seed g1) d hd hin

/-- Claim C2 (amended): for `W, H ≥ 3`, after the seed carve all nine
cells of the 3x3 block centered at `(W/2, H/2)` are open, they are still
open when the seal pass runs and they survive it, because every one of the
nine carries a nonzero accessibility value when the seal pass runs (the
center by its flood-fill bit A, the other eight at least by neighbor
bit B); the center always has bit A set.  (The original claim, that every
cell of the block has bit A set, is refuted by
`c2_bitA_counterexample`.) -/
theorem c2_seed_block_open (g : Grid) (hW : 3 ≤ g.W) (hH : 3 ≤ g.H) :
    (∀ c ∈ seedBlock g, (carve g).cell c.1 c.2 = false ∧
      holePass (carve g) (floodAcc (carve g)) c.1 c.2 ≠ 0 ∧
      (FillMapHoles g).cell c.1 c.2 = false) ∧
    floodAcc (carve g) (seedX g) (seedY g) &&& 1 = 1 := by
  have hseed : floodAcc (carve g) (seedX g) (seedY g) &&& 1 = 1 :=
    floodAcc_bitA_seed (carve g)
  refine ⟨?_, hseed⟩
  intro c hc
  have hbox := (mem_seedBlock_iff g c).mp hc
  have hopen : (carve g).cell c.1 c.2 = false := carve_cell_seedBlock g c hc
  have hin : inB (carve g).W (carve g).H c.1 c.2 := by
    show inB g.W g.H c.1 c.2
    have hbox2 := hbox
    simp only [seedX, seedY] at hbox2
    refine ⟨by omega, by omega, by omega, by omega⟩
  have hnear : c = seedXY (carve g) ∨ stepMoore (seedXY (carve g)) c := by
    by_cases he : c.1 = seedX g ∧ c.2 = seedY g
    · exact Or.inl (xy_eq_of_parts he.1 he.2)
    · right
      have hmem : ((c.1 - seedX g, c.2 - seedY g) : XY) ∈ offsets := by
        apply mem_offsets_of_bounds
        · omega
        · omega
        · omega
        · omega
        · intro hzero
          exact he ⟨by omega, by omega⟩
      refine ⟨(c.1 - seedX g, c.2 - seedY g), hmem, ?_⟩
      have hcc : c = (seedX g + (c.1 - seedX g), seedY g + (c.2 - seedY g)) :=
        xy_eq_of_parts (by omega) (by omega)
      exact hcc
  have hne : floodAcc (carve g) c.1 c.2 ≠ 0 :=
    floodAcc_seed_nbhd (carve g) c hnear hin
  have hhole : holePass (carve g) (floodAcc (carve g)) c.1 c.2 ≠ 0 :=
    holePass_ne_zero (carve g) _ c.1 c.2 hne
  exact ⟨hopen, hhole,
    sealPass_open_of_ne_zero (carve g) _ c.1 c.2 hopen hhole⟩

/-- Claim C2 witness: the amended seed-block property evaluated on the
all-wall 9x9 grid. -/
theorem c2_seed_block_open_witness :
    (∀ c ∈ seedBlock gAll, (carve gAll).cell c.1 c.2 = false ∧
      holePass (carve gAll) (floodAcc (carve gAll)) c.1 c.2 ≠ 0 ∧
      (FillMapHoles gAll).cell c.1 c.2 = false) ∧
    floodAcc (carve gAll) (seedX gAll) (seedY gAll) &&& 1 = 1 :=
  c2_seed_block_open gAll (by decide) (by decide)

/-- Claim C2 counterexample: on the all-wall 9x9 grid the seed-block cell
`(3,4)` (left neighbor of the seed `(4,4)`) is open when the seal pass
runs, but its accessibility bit A is clear (its value is bit B only), so
the claim that every cell of the carved 3x3 block has bit A set when the
seal pass runs is false. -/
theorem c2_bitA_counterexample :
    ((3 : Int), (4 : Int)) ∈ seedBlock gAll ∧
    (carve gAll).cell 3 4 = false ∧
    holePass (carve gAll) (floodAcc (carve gAll)) 3 4 &&& 1 = 0 := by decide

end WallMap

namespace WallMap

theorem floodAcc_bitA_nbhd (g1 : Grid) (c d : XY)
    (hc : floodAcc g1 c.1 c.2 &&& 1 = 1)
    (hd : d = c ∨ stepMoore c d) (hin : inB g1.W g1.H d.1 d.2) :
    floodAcc g1 d.1 d.2 ≠ 0 := by
  have ha0 : ∀ c2 : XY, (fun _ _ => (0 : Nat)) c2.1 c2.2 &&& 1 = 1 → ∀ d2 : XY,
      (d2 = c2 ∨ stepMoore c2 d2) → inB g1.W g1.H d2.1 d2.2 →
      (fun _ _ => (0 : Nat)) d2.1 d2.2 ≠ 0 := by
    intro c2 hc2
    simp at hc2
  exact flood_neighbor_marked g1 (fillFuel g1) (fun _ _ => 0) [seedXY g1] ha0
    c hc d hd hin

theorem floodAcc_bitA_open3x3 (g : Grid) (hW : 3 ≤ g.W) (hH : 3 ≤ g.H)
    (c : XY) (hc : floodAcc (carve g) c.1 c.2 &&& 1 = 1) :
    open3x3 (carve g) c.1 c.2 = true := by
  have key := flood_bitA_pred (carve g)
    (fun d => d = seedXY (carve g) ∨ open3x3 (carve g) d.1 d.2 = true)
    (fun d hd => Or.inr hd) (fillFuel (carve g)) (fun _ _ => 0)
    [seedXY (carve g)] ?_ ?_
  · rcases key.2 c hc with he | ho
    · rw [he]
      show open3x3 (carve g) (seedX g) (seedY g) = true
      exact carve_seed_open3x3 g hW hH
    · exact ho
  · intro c2 hc2
    rw [List.mem_singleton] at hc2
    exact Or.inl hc2
  · intro c2 hc2
    simp at hc2

theorem bitA_open3x3_final (g : Grid) (hW : 3 ≤ g.W) (hH : 3 ≤ g.H)
    (c : XY) (hc : floodAcc (carve g) c.1 c.2 &&& 1 = 1) :
    open3x3 (FillMapHoles g) c.1 c.2 = true := by
  have h1 := floodAcc_bitA_open3x3 g hW hH c hc
  rw [open3x3_eq_true_iff] at h1 ⊢
  obtain ⟨hcen, hring⟩ := h1
  rw [MAP_DATA_eq_zero_iff] at hcen
  constructor
  · rw [MAP_DATA_eq_zero_iff]
    refine ⟨hcen.1, ?_⟩
    show (sealPass (carve g)
      (holePass (carve g) (floodAcc (carve g)))).cell c.1 c.2 = false
    apply sealPass_open_of_ne_zero
    · exact hcen.2
    · apply holePass_ne_zero
      intro h0
      rw [h0] at hc
      simp at hc
  · intro o ho
    have hro := hring o ho
    rw [MAP_DATA_eq_zero_iff] at hro ⊢
    refine ⟨hro.1, ?_⟩
    show (sealPass (carve g)
      (holePass (carve g) (floodAcc (carve g)))).cell (c.1 + o.1) (c.2 + o.2) = false
    apply sealPass_open_of_ne_zero
    · exact hro.2
    · apply holePass_ne_zero
      exact floodAcc_bitA_nbhd (carve g) c (c.1 + o.1, c.2 + o.2) hc
        (Or.inr ⟨o, markOrder_sub_offsets o ho, rfl⟩) hro.1

theorem floodAcc_chain (g1 : Grid) (c : XY)
    (hc : floodAcc g1 c.1 c.2 &&& 1 = 1) :
    Relation.ReflTransGen
      (fun u v => stepMoore u v ∧ floodAcc g1 v.1 v.2 &&& 1 = 1)
      (seedXY g1) c := by
  apply flood_chain g1 (seedXY g1) (fillFuel g1) (fun _ _ => 0) [seedXY g1]
    ?_ ?_ c hc
  · intro c2 hc2
    rw [List.mem_singleton] at hc2
    exact Or.inl hc2
  · intro c2 hc2
    simp at hc2

/-- Claim C1 (amended): for `W, H ≥ 3`, after `FillMapHoles` every
remaining open cell falls into one of three classes: (i) a flood-reached
cell (accessibility bit A set by the flood fill), whose full 3x3
neighborhood is still open in the final grid; (ii) a cell that was not
flood-reached but carries a nonzero accessibility value, which is
Moore-adjacent to some flood-reached cell; or (iii) a preserved pocket
cell with accessibility value 0, which is open, has orthogonal wall sum 3
(exactly one open orthogonal neighbor at preservation time), and has no
flood-reached cell in its closed Moore neighborhood.  Moreover any two
flood-reached cells are mutually reachable through a chain of
Moore-adjacent flood-reached cells whose 3x3 neighborhoods are fully open
in the final grid.  (The original claim — that apart from one connected
set only isolated single cells remain, with no other disconnected open
region of two or more cells — is refuted by
`c1_pocket_counterexample`: adjacent preserved pocket cells can form a
disconnected open region of size two.) -/
theorem c1_connectivity_classification (g : Grid) (hW : 3 ≤ g.W)
    (hH : 3 ≤ g.H) :
    (∀ c : XY, openCell (FillMapHoles g) c →
      (floodAcc (carve g) c.1 c.2 &&& 1 = 1 ∧
        open3x3 (FillMapHoles g) c.1 c.2 = true) ∨
      (floodAcc (carve g) c.1 c.2 ≠ 0 ∧
        ¬ floodAcc (carve g) c.1 c.2 &&& 1 = 1 ∧
        ∃ p : XY, stepMoore c p ∧ floodAcc (carve g) p.1 p.2 &&& 1 = 1) ∨
      (floodAcc (carve g) c.1 c.2 = 0 ∧ (carve g).cell c.1 c.2 = false ∧
        orthCount (carve g) c.1 c.2 = 3 ∧
        ∀ p : XY, (p = c ∨ stepMoore c p) →
          ¬ floodAcc (carve g) p.1 p.2 &&& 1 = 1)) ∧
    (∀ c1 c2 : XY, floodAcc (carve g) c1.1 c1.2 &&& 1 = 1 →
      floodAcc (carve g) c2.1 c2.2 &&& 1 = 1 →
      chainA (FillMapHoles g) (floodAcc (carve g)) c1 c2) := by
  constructor
  · intro c hc
    obtain ⟨hin, hcell⟩ := hc
    have hin1 : inB (carve g).W (carve g).H c.1 c.2 := hin
    have hg1cell : (carve g).cell c.1 c.2 = false ∧
        holePass (carve g) (floodAcc (carve g)) c.1 c.2 ≠ 0 := by
      revert hcell
      show (if inB (carve g).W (carve g).H c.1 c.2 ∧
            (carve g).cell c.1 c.2 = false ∧
            holePass (carve g) (floodAcc (carve g)) c.1 c.2 = 0 then true
            else (carve g).cell c.1 c.2) = false → _
      by_cases hguard : inB (carve g).W (carve g).H c.1 c.2 ∧
          (carve g).cell c.1 c.2 = false ∧
          holePass (carve g) (floodAcc (carve g)) c.1 c.2 = 0
      · rw [if_pos hguard]
        intro h
        exact absurd h (by simp)
      · rw [if_neg hguard]
        intro hopen
        refine ⟨hopen, ?_⟩
        intro hzero
        exact hguard ⟨hin1, hopen, hzero⟩
    by_cases hA : floodAcc (carve g) c.1 c.2 &&& 1 = 1
    · exact Or.inl ⟨hA, bitA_open3x3_final g hW hH c hA⟩
    · by_cases h0 : floodAcc (carve g) c.1 c.2 = 0
      · right
        right
        have hcond : inB (carve g).W (carve g).H c.1 c.2 ∧
            (carve g).cell c.1 c.2 = false ∧
            floodAcc (carve g) c.1 c.2 = 0 ∧
            orthCount (carve g) c.1 c.2 = 3 := by
          by_contra hnc
          apply hg1cell.2
          show holePass (carve g) (floodAcc (carve g)) c.1 c.2 = 0
          unfold holePass
          rw [if_neg hnc]
          exact h0
        refine ⟨h0, hg1cell.1, hcond.2.2.2, ?_⟩
        intro p hp hAp
        have hd : c = p ∨ stepMoore p c := by
          rcases hp with he | hs
          · exact Or.inl he.symm
          · exact Or.inr (stepMoore_symm hs)
        exact floodAcc_bitA_nbhd (carve g) p c hAp hd hin1 h0
      · right
        left
        refine ⟨h0, hA, ?_⟩
        have ha0 : ∀ c2 : XY, (fun _ _ => (0 : Nat)) c2.1 c2.2 ≠ 0 →
            (fun _ _ => (0 : Nat)) c2.1 c2.2 &&& 1 = 1 ∨
            ∃ p : XY, stepMoore c2 p ∧
              (fun _ _ => (0 : Nat)) p.1 p.2 &&& 1 = 1 := by
          intro c2 hc2
          exact absurd rfl hc2
        rcases flood_nonzero_source (carve g) (fillFuel (carve g)) (fun _ _ => 0)
          [seedXY (carve g)] ha0 c h0 with h | h
        · exact absurd h hA
        · exact h
  · intro c1 c2 hA1 hA2
    have hup : ∀ c3 : XY,
        Relation.ReflTransGen
          (fun u v => stepMoore u v ∧ floodAcc (carve g) v.1 v.2 &&& 1 = 1)
          (seedXY (carve g)) c3 →
        Relation.ReflTransGen
          (fun u v => stepMoore u v ∧ floodAcc (carve g) v.1 v.2 &&& 1 = 1 ∧
            open3x3 (FillMapHoles g) v.1 v.2 = true)
          (seedXY (carve g)) c3 := by
      intro c3 h3
      apply Relation.ReflTransGen.mono ?_ h3
      intro u v hv
      exact ⟨hv.1, hv.2, bitA_open3x3_final g hW hH v hv.2⟩
    have hQseed : floodAcc (carve g) (seedXY (carve g)).1
          (seedXY (carve g)).2 &&& 1 = 1 ∧
        open3x3 (FillMapHoles g) (seedXY (carve g)).1
          (seedXY (carve g)).2 = true := by
      have hs : floodAcc (carve g) (seedXY (carve g)).1
          (seedXY (carve g)).2 &&& 1 = 1 := floodAcc_bitA_seed (carve g)
      exact ⟨hs, bitA_open3x3_final g hW hH (seedXY (carve g)) hs⟩
    have h1 := hup c1 (floodAcc_chain (carve g) c1 hA1)
    have h2 := hup c2 (floodAcc_chain (carve g) c2 hA2)
    have h1r := @rtg_reverse
      (fun v => floodAcc (carve g) v.1 v.2 &&& 1 = 1 ∧
        open3x3 (FillMapHoles g) v.1 v.2 = true)
      (seedXY (carve g)) c1 hQseed h1
    exact h1r.trans h2

end WallMap

namespace WallMap

theorem offsets_bounds :
    ∀ o ∈ offsets, -1 ≤ o.1 ∧ o.1 ≤ 1 ∧ -1 ≤ o.2 ∧ o.2 ≤ 1 := by decide

theorem pocket_ring_wall (u v : Int) (h1 : 2 ≤ u) (h2 : u ≤ 6) (h3 : 2 ≤ v)
    (h4 : v ≤ 6) (h5 : ¬(3 ≤ u ∧ u ≤ 5 ∧ 3 ≤ v ∧ v ≤ 5)) :
    (FillMapHoles gPocket).cell u v = true := by
  interval_cases u <;> interval_cases v <;>
    first
      | decide
      | exact absurd (by decide) h5

theorem pocket_reach_confined (c d : XY)
    (hc : 3 ≤ c.1 ∧ c.1 ≤ 5 ∧ 3 ≤ c.2 ∧ c.2 ≤ 5)
    (hd : Relation.ReflTransGen
      (fun u v => stepMoore u v ∧ openCell (FillMapHoles gPocket) v) c d) :
    3 ≤ d.1 ∧ d.1 ≤ 5 ∧ 3 ≤ d.2 ∧ d.2 ≤ 5 := by
  induction hd with
  | refl => exact hc
  | tail hprev hstep ih =>
    rename_i b2 c2
    obtain ⟨hs, hopen⟩ := hstep
    obtain ⟨o, ho, hoe⟩ := hs
    subst hoe
    obtain ⟨hb1, hb2, hb3, hb4⟩ := ih
    obtain ⟨ho1, ho2, ho3, ho4⟩ := offsets_bounds o ho
    obtain ⟨hoin, hocell⟩ := hopen
    dsimp only at hocell ⊢
    by_contra hnbox
    have hwall := pocket_ring_wall (b2.1 + o.1) (b2.2 + o.2)
      (by omega) (by omega) (by omega) (by omega)
      (by
        intro hbox
        apply hnbox
        exact ⟨hbox.1, hbox.2.1, hbox.2.2.1, hbox.2.2.2⟩)
    rw [hwall] at hocell
    exact absurd hocell (by decide)

/-- Claim C1 counterexample: on the 9x9 grid `gPocket` (all wall except
the two-cell pocket `(1,1)`, `(2,1)`), `FillMapHoles` preserves both
pocket cells, leaving a disconnected open region of size two: `(4,4)` and
`(1,1)` are both open and both have an open orthogonal neighbor, yet no
chain of Moore-adjacent open cells connects them, so the claimed
connectivity invariant (a single mutually reachable set plus isolated
single cells, with no other disconnected open region of two or more
cells) is false for this run. -/
theorem c1_pocket_counterexample :
    ¬ connectivityClaim (FillMapHoles gPocket) := by
  intro h
  have hreach := h (4, 4) (1, 1) ⟨by decide, by decide⟩ ⟨by decide, by decide⟩
    ⟨(3, 4), ⟨(-1, 0), by decide, by decide⟩, by decide, by decide⟩
    ⟨(2, 1), ⟨(1, 0), by decide, by decide⟩, by decide, by decide⟩
  have hd2 : Relation.ReflTransGen
      (fun u v => stepMoore u v ∧ openCell (FillMapHoles gPocket) v)
      (4, 4) (1, 1) := hreach
  have hbad := pocket_reach_confined (4, 4) (1, 1) (by decide) hd2
  exact absurd hbad (by decide)

/-- Claim C1 witness: the amended classification and mutual-chain property
instantiated on the all-wall 9x9 grid. -/
theorem c1_connectivity_classification_witness :
    (∀ c : XY, openCell (FillMapHoles gAll) c →
      (floodAcc (carve gAll) c.1 c.2 &&& 1 = 1 ∧
        open3x3 (FillMapHoles gAll) c.1 c.2 = true) ∨
      (floodAcc (carve gAll) c.1 c.2 ≠ 0 ∧
        ¬ floodAcc (carve gAll) c.1 c.2 &&& 1 = 1 ∧
        ∃ p : XY, stepMoore c p ∧ floodAcc (carve gAll) p.1 p.2 &&& 1 = 1) ∨
      (floodAcc (carve gAll) c.1 c.2 = 0 ∧ (carve gAll).cell c.1 c.2 = false ∧
        orthCount (carve gAll) c.1 c.2 = 3 ∧
        ∀ p : XY, (p = c ∨ stepMoore c p) →
          ¬ floodAcc (carve gAll) p.1 p.2 &&& 1 = 1)) ∧
    (∀ c1 c2 : XY, floodAcc (carve gAll) c1.1 c1.2 &&& 1 = 1 →
      floodAcc (carve gAll) c2.1 c2.2 &&& 1 = 1 →
      chainA (FillMapHoles gAll) (floodAcc (carve gAll)) c1 c2) :=
  c1_connectivity_classification gAll (by decide) (by decide)

end WallMap
